import Mathlib

/-!
# Verification of the serverless-version-manager core

Shallow embedding of `src/index.ts` (class `VersionManager`):
semantic-version parsing and comparison (`isGreaterVersion`, the
`semverSort` comparator), the registry query and sort
(`getStagesInOrder`), the retention partition and teardown loop
(`cleanupVersions`), and the candidate gate (`validateVersion`).

JS-specific semantics that matter here and how they are modelled:
* `undefined`/absent values are `Option.none`;
* a stage's `tags` object is `Option (Option String)`:
  `none` = no tags object, `some none` = tags object without an `ALIAS`
  entry, `some (some v)` = `ALIAS` present with value `v`;
* `Number(s)` on a split fragment: `""` gives `0`, an all-digit string
  gives its value, anything else gives `NaN`; a JS number is modelled as
  `Option Int` with `none` = `NaN`;
* `x || 0` coerces both `NaN` and `0` to `0` (`jsCoerce`), while
  `x ?? 0` only replaces `undefined` (modelled by `List.getD _ (some 0)`);
* a runtime `TypeError` from dereferencing `undefined`
  (`a.tags!.ALIAS.replace` with `tags` or `ALIAS` absent) is the
  untyped error `VErr.typeError` / `Except.error ()`;
* `Array.prototype.sort` with a user comparator is modelled as a stable
  insertion sort that compares `comparator(existing, inserted)` and
  shifts while the result is `> 0` (the argument order engines use for
  insertion sorting); a comparator result of `NaN` counts as `+0`, per
  the ECMA `SortCompare` clause;
* `arr.slice(-n)` is `jsSliceNeg`; `arr.includes` is value equality
  (`List.contains`), which coincides with JS reference equality on lists
  of pairwise-distinct records (hence the `Nodup` hypotheses);
* the async effects of the cleanup loop are a trace: the emitted log
  events and the CloudFormation calls, with the outcome of
  `deleteStack`/`waitFor` supplied by oracle functions
  `del wait : String → Except String Unit`.
-/

/-- One API-Gateway stage record as the code reads it: the optional
`stageName` and the optional `tags` object with its optional `ALIAS`
entry. -/
structure Stage where
  stageName : Option String
  tags : Option (Option String)
deriving DecidableEq

/-- A log event emitted through `this.log`. -/
inductive LogEvent where
  | info (msg : String)
  | success (msg : String)
  | error (msg : String)
deriving DecidableEq

/-- A CloudFormation request issued by the cleanup loop. -/
inductive CfCall where
  | deleteStack (name : String)
  | waitFor (name : String)
deriving DecidableEq

/-- The errors `VersionManager` can raise: the typed `throw new Error`
cases of the source, plus `typeError` for an untyped runtime
`TypeError` caused by dereferencing `undefined`. -/
inductive VErr where
  | missingRetainPolicy
  | missingApiVersion
  | invalidFormat
  | versionNotIncreasing
  | serviceNotDefined
  | restApiNotFound
  | stagesUndetermined
  | typeError
deriving DecidableEq

/-- `s.replace(/^v/, '')`: drop a single leading `'v'` (source lines
149, 153-154). -/
def stripV : List Char → List Char
  | 'v' :: rest => rest
  | cs => cs

/-- `s.split(/[-.]/)` on the character list: split at every `'-'` or
`'.'`; like the JS split it always returns at least one (possibly
empty) fragment. -/
def splitSep : List Char → List (List Char)
  | [] => [[]]
  | c :: rest =>
    match splitSep rest with
    | [] => [[c]]
    | g :: gs => if c = '-' || c = '.' then [] :: g :: gs else (c :: g) :: gs

/-- Numeric value of an all-digit fragment. -/
def digitsVal (cs : List Char) : Int :=
  cs.foldl (fun n c => 10 * n + Int.ofNat (c.toNat - 48)) 0

/-- `Number(fragment)` for the fragments this program produces: the
empty string is `0`, an all-digit string is its value, anything else is
`NaN` (`none`). -/
def jsNumber (cs : List Char) : Option Int :=
  if cs = [] then some 0
  else if cs.all Char.isDigit then some (digitsVal cs) else none

/-- `raw.replace(/^v/, '').split(/[-.]/).map(Number)` (source lines
149-150 and 153-154). -/
def parseTag (s : String) : List (Option Int) :=
  (splitSep (stripV s.data)).map jsNumber

/-- `x || 0`: both `NaN` and `0` are falsy, so they coerce to `0`. -/
def jsCoerce : Option Int → Int
  | some n => n
  | none => 0

/-- The index loop of `isGreaterVersion` (source lines 156-162):
`num1 = v1[i] || 0`, `num2 = v2[i] || 0`, return on the first strict
difference, `false` when the fuel (the number of remaining iterations,
initially `max v1.length v2.length`) runs out. -/
def isGreaterAux (v1 v2 : List Int) : Nat → Nat → Bool
  | _, 0 => false
  | i, fuel + 1 =>
    if v2.getD i 0 < v1.getD i 0 then true
    else if v1.getD i 0 < v2.getD i 0 then false
    else isGreaterAux v1 v2 (i + 1) fuel

/-- `isGreaterVersion` on already parsed-and-coerced component lists. -/
def isGreaterInt (v1 v2 : List Int) : Bool :=
  isGreaterAux v1 v2 0 (max v1.length v2.length)

/-- `isGreaterVersion(greater, lesser)` (source lines 152-165).  The
loop reads every component through `|| 0`, so coercing each parsed
component first is exact. -/
def isGreaterVersion (greater lesser : String) : Bool :=
  isGreaterInt ((parseTag greater).map jsCoerce) ((parseTag lesser).map jsCoerce)

/-- JS truthiness of a number: `0` and `NaN` are falsy. -/
def jsTruthyNum (x : Option Int) : Bool :=
  match x with
  | some n => n ≠ 0
  | none => false

/-- `x || y` on JS numbers. -/
def jsOr (x y : Option Int) : Option Int := if jsTruthyNum x then x else y

/-- JS subtraction: `NaN` propagates. -/
def jsSub (x y : Option Int) : Option Int :=
  match x, y with
  | some m, some n => some (m - n)
  | _, _ => none

/-- The `reduce((acc, cur, i) => acc || cur - (b[i] ?? 0), 0)` of
`semverSort` (source line 150): the accumulator keeps the first truthy
difference; `?? 0` only replaces an out-of-range (`undefined`) index,
so an in-range `NaN` stays `NaN`. -/
def semverFold (b : List (Option Int)) : List (Option Int) → Nat → Option Int → Option Int
  | [], _, acc => acc
  | x :: xs, i, acc => semverFold b xs (i + 1) (jsOr acc (jsSub x (b.getD i (some 0))))

/-- The numeric result of the `semverSort` reduce on two parsed tags. -/
def semverCompareP (a b : List (Option Int)) : Option Int := semverFold b a 0 (some 0)

/-- The same reduce on NaN-free (valid-token) component lists. -/
def cmpFold (b : List Int) : List Int → Nat → Int → Int
  | [], _, acc => acc
  | x :: xs, i, acc => cmpFold b xs (i + 1) (if acc ≠ 0 then acc else x - b.getD i 0)

/-- `semverSort`'s comparison value on valid tokens: the first nonzero
component difference scanned over `a`'s indices (with `b` zero-padded),
else `0`. -/
def semverCompareInt (a b : List Int) : Int := cmpFold b a 0 0

/-- The `semverSort` comparator on stage records (source lines
148-150).  `a.tags!.ALIAS.replace` throws a `TypeError` when `a` has no
tags object or no `ALIAS` entry; on the `b` side the optional chain
`b.tags?.…[i] ?? 0` makes a missing tags object read as all zeros,
while a tags object without `ALIAS` throws. -/
def semverSort (a b : Stage) : Except Unit (Option Int) :=
  match a.tags, b.tags with
  | none, _ => .error ()
  | some none, _ => .error ()
  | some (some _), some none => .error ()
  | some (some ta), none => .ok (semverCompareP (parseTag ta) [])
  | some (some ta), some (some tb) => .ok (semverCompareP (parseTag ta) (parseTag tb))

/-- ECMA `SortCompare`: a comparator result counts as "greater" when it
is a number `> 0`; `NaN` counts as `+0`. -/
def jsPos (x : Option Int) : Bool :=
  match x with
  | some n => 0 < n
  | none => false

/-- One insertion step of the modelled `Array.prototype.sort`: the
lists are kept reversed (head = current maximum); the inserted element
`x` moves left past every `y` with `comparator(y, x) > 0` and settles
at the first `y` with a non-positive comparison (stable for ties).  A
comparator throw aborts the whole sort. -/
def insertStageRev (x : Stage) : List Stage → Except Unit (List Stage)
  | [] => .ok [x]
  | y :: ys => do
    let d ← semverSort y x
    if jsPos d then
      let r ← insertStageRev x ys
      .ok (y :: r)
    else
      .ok (x :: y :: ys)

/-- `versionStages.sort(this.semverSort)` (source line 220), as a
stable insertion sort threading comparator failures. -/
def sortStages (l : List Stage) : Except Unit (List Stage) := do
  let r ← l.foldlM (fun acc x => insertStageRev x acc) []
  .ok r.reverse

/-- The registry data an orchestration run consumes: the service name
(`none` = JS `null`), the resolved `ApiGatewayRestApi` output, and the
`stages.item` array of the `getStages` response. -/
structure RegistryView where
  service : Option String
  restApiId : Option String
  item : Option (List Stage)

/-- `stage.stageName?.startsWith('v')` (source line 219). -/
def startsWithV : Option String → Bool
  | some s =>
    match s.data with
    | 'v' :: _ => true
    | _ => false
  | none => false

/-- `getStagesInOrder` (source lines 202-222): fail when the service is
`null` or the rest-API id cannot be resolved; otherwise filter the
stages whose name starts with `'v'` and sort them with `semverSort`.  A
comparator `TypeError` propagates out of the sort. -/
def getStagesInOrder (r : RegistryView) : Except VErr (Option (List Stage)) :=
  if r.service = none then .error .serviceNotDefined
  else if r.restApiId = none then .error .restApiNotFound
  else
    match r.item with
    | none => .ok none
    | some stages =>
      match sortStages (stages.filter (fun st => startsWithV st.stageName)) with
      | .error _ => .error .typeError
      | .ok sorted => .ok (some sorted)

/-- `arr.slice(-n)`: for `n > 0` the last `min n arr.length` elements;
JS treats `-0` as `0`, so `n = 0` yields the whole array. -/
def jsSliceNeg (l : List α) (n : Nat) : List α :=
  if n = 0 then l else l.drop (l.length - n)

/-- `orderedStages?.slice(-this.retainPolicy)` (source line 110). -/
def stagesToKeepOf (l : List Stage) (retain : Nat) : List Stage :=
  jsSliceNeg l retain

/-- `orderedStages?.filter(s => !stagesToKeep?.includes(s))` (source
line 111). -/
def stagesToDeleteOf (l : List Stage) (retain : Nat) : List Stage :=
  l.filter (fun s => !((stagesToKeepOf l retain).contains s))

/-- `${service || ''}-${this.stage}-${version}` (source line 125). -/
def mkStackName (service stage version : String) : String :=
  service ++ "-" ++ stage ++ "-" ++ version

/-- `stage.tags?.ALIAS` (source line 115). -/
def aliasOf (st : Stage) : Option String := st.tags.bind id

/-- One iteration of the cleanup loop (source lines 114-145): skip with
a log when the stage name or the `ALIAS` tag is absent; otherwise issue
`deleteStack` and, if it succeeded, `waitFor`, logging success or the
caught error.  The returned pair is (emitted logs, issued calls). -/
def processStage (service stage : String) (del wait : String → Except String Unit)
    (st : Stage) : List LogEvent × List CfCall :=
  match st.stageName, aliasOf st with
  | none, _ => ([.error "STAGE undefined, continuing"], [])
  | some sn, none => ([.info ("ALIAS not present for stage " ++ sn)], [])
  | some _, some v =>
    match del (mkStackName service stage v) with
    | .error m =>
      ([.info ("Removing stack for version: " ++ v),
        .error ("Warning: Error removing version " ++ v ++ ": " ++ m)],
       [.deleteStack (mkStackName service stage v)])
    | .ok _ =>
      match wait (mkStackName service stage v) with
      | .error m =>
        ([.info ("Removing stack for version: " ++ v),
          .error ("Warning: Error removing version " ++ v ++ ": " ++ m)],
         [.deleteStack (mkStackName service stage v), .waitFor (mkStackName service stage v)])
      | .ok _ =>
        ([.info ("Removing stack for version: " ++ v),
          .success ("Successfully removed stack for version: " ++ v)],
         [.deleteStack (mkStackName service stage v), .waitFor (mkStackName service stage v)])

/-- The `for (const stage of stagesToDelete)` loop, accumulating the
trace in order.  The loop itself is total: every iteration's errors are
absorbed by `processStage`. -/
def runLoop (service stage : String) (del wait : String → Except String Unit)
    (stages : List Stage) : List LogEvent × List CfCall :=
  stages.foldl
    (fun acc st =>
      let r := processStage service stage del wait st
      (acc.1 ++ r.1, acc.2 ++ r.2))
    ([], [])

/-- `cleanupVersions` (source lines 104-146).  The first component is
the operation's returned value — `Promise<void>`, so `Unit` on success —
and the rest is the observable trace. -/
def cleanupVersions (r : RegistryView) (stage : String) (retain : Nat)
    (del wait : String → Except String Unit) :
    Except VErr Unit × List LogEvent × List CfCall :=
  match r.service with
  | none => (.error .serviceNotDefined, [], [])
  | some svc =>
    match getStagesInOrder r with
    | .error e => (.error e, [], [])
    | .ok orderedStages =>
      match orderedStages.map (fun l => stagesToDeleteOf l retain) with
      | none => (.error .stagesUndetermined, [], [])
      | some dels =>
        let t := runLoop svc stage del wait dels
        (.ok (), t.1, t.2)

/-- JS falsiness of the configured `retainPolicy` string: absent or
empty. -/
def jsFalsyStr : Option String → Bool
  | none => true
  | some s => s = ""

/-- Split on `'-'` only (the candidate regex has no `'.'`). -/
def splitDash : List Char → List (List Char)
  | [] => [[]]
  | c :: rest =>
    match splitDash rest with
    | [] => [[c]]
    | g :: gs => if c = '-' then [] :: g :: gs else (c :: g) :: gs

/-- The candidate regex `^v\d+-\d+-\d+$` (source line 183): a leading
`'v'` followed by exactly three nonempty all-digit groups joined by
`'-'`. -/
def matchesVersionRegex (s : String) : Bool :=
  match s.data with
  | 'v' :: rest =>
    let ps := splitDash rest
    ps.length = 3 && ps.all (fun p => !p.isEmpty && p.all Char.isDigit)
  | _ => false

/-- Modelled from the spec: the shape `v<int>(-<int>)*` the spec claims
the format gate enforces — a leading `'v'` and one or more all-digit
groups joined by `'-'`.  Used only to compare the spec's wording with
the source regex. -/
def specVersionShape (s : String) : Bool :=
  match s.data with
  | 'v' :: rest => (splitDash rest).all (fun p => !p.isEmpty && p.all Char.isDigit)
  | _ => false

/-- `validateVersion` (source lines 171-200): check the retention
policy, the presence of `apiVersion`, its format (only when the string
is truthy — the empty string skips the regex), then compare against the
latest deployed stage.  When the latest stage has a tags object without
an `ALIAS` entry, `isGreaterVersion(candidate, undefined)` dereferences
`undefined` — an untyped `typeError`. -/
def validateVersion (retainPolicy apiVersion : Option String) (r : RegistryView) :
    Except VErr Unit :=
  if jsFalsyStr retainPolicy then .error .missingRetainPolicy
  else
    match apiVersion with
    | none => .error .missingApiVersion
    | some av =>
      if av ≠ "" ∧ matchesVersionRegex av = false then .error .invalidFormat
      else
        match getStagesInOrder r with
        | .error e => .error e
        | .ok orderedStages =>
          match orderedStages.bind (fun l => l.getLast?) with
          | none => .ok ()
          | some lastStage =>
            match lastStage.tags with
            | none => .ok ()
            | some none => .error .typeError
            | some (some tag) =>
              if isGreaterVersion av tag then .ok ()
              else .error .versionNotIncreasing

/-- The strict "greater" relation on zero-padded component sequences:
some index carries a strictly larger component, all earlier indices
agree.  This is the mathematical reading of "component-wise integer
comparison, left to right, missing trailing components treated as
zero". -/
def GTseq (u v : List Int) : Prop :=
  ∃ k, (∀ j < k, u.getD j 0 = v.getD j 0) ∧ v.getD k 0 < u.getD k 0

/-- Pointwise equality of zero-padded component sequences. -/
def EQseq (u v : List Int) : Prop := ∀ j, u.getD j 0 = v.getD j 0

/-- All components non-negative: what parsing a well-formed version
string can produce. -/
def nonnegTok (u : List Int) : Prop := ∀ x ∈ u, 0 ≤ x

/-- The parsed, coerced component list of a stage's `ALIAS` tag. -/
def stageTok (st : Stage) : List Int :=
  match st.tags with
  | some (some t) => (parseTag t).map jsCoerce
  | _ => []

/-- Stage `a` is not strictly greater than stage `b` by version token. -/
def stageLE (a b : Stage) : Prop := ¬ GTseq (stageTok a) (stageTok b)

/-- A stage the sort and the cleanup loop can fully read: a `'v'`-named
stage whose `ALIAS` tag parses without `NaN`s. -/
def goodStage (st : Stage) : Prop :=
  startsWithV st.stageName = true ∧
  ∃ t, st.tags = some (some t) ∧ (parseTag t).all Option.isSome = true

/-- First nonzero component difference of `l` against `b` (shifted by
`i`), else `0`: the closed form of `cmpFold` started at accumulator
`0`. -/
def firstDiff (b : List Int) : List Int → Nat → Int
  | [], _ => 0
  | x :: xs, i => if x - b.getD i 0 = 0 then firstDiff b xs (i + 1) else x - b.getD i 0

/-- The stack names passed to `deleteStack`, in call order. -/
def deleteNames (calls : List CfCall) : List String :=
  calls.filterMap (fun c =>
    match c with
    | .deleteStack n => some n
    | _ => none)

/-- The stack name a readable retired record leads to, `none` for a
record the loop skips. -/
def expectedDeleteName (service stage : String) (st : Stage) : Option String :=
  match st.stageName, aliasOf st with
  | some _, some v => some (mkStackName service stage v)
  | _, _ => none

/-- Recognizer for error log events. -/
def isErrorLog : LogEvent → Bool
  | .error _ => true
  | _ => false

/-- Recognizer for success log events. -/
def isSuccessLog : LogEvent → Bool
  | .success _ => true
  | _ => false

/-! ## First-difference characterizations of the two comparators -/

theorem cmpFold_acc (b : List Int) :
    ∀ (l : List Int) (i : Nat) (acc : Int), acc ≠ 0 → cmpFold b l i acc = acc
  | [], _, _, _ => rfl
  | x :: xs, i, acc, h => by
    simp only [cmpFold, if_pos h]
    exact cmpFold_acc b xs (i + 1) acc h

theorem cmpFold_eq_firstDiff (b : List Int) :
    ∀ (l : List Int) (i : Nat), cmpFold b l i 0 = firstDiff b l i
  | [], _ => rfl
  | x :: xs, i => by
    simp only [cmpFold, firstDiff]
    rw [if_neg (by simp)]
    by_cases h : x - b.getD i 0 = 0
    · rw [if_pos h, h]
      exact cmpFold_eq_firstDiff b xs (i + 1)
    · rw [if_neg h]
      exact cmpFold_acc b xs (i + 1) _ h

theorem firstDiff_pos_iff (b : List Int) :
    ∀ (l : List Int) (i : Nat),
      (0 < firstDiff b l i ↔
        ∃ k < l.length, (∀ j < k, l.getD j 0 = b.getD (i + j) 0) ∧
          b.getD (i + k) 0 < l.getD k 0)
  | [], i => by simp [firstDiff]
  | x :: xs, i => by
    simp only [firstDiff]
    by_cases h : x - b.getD i 0 = 0
    · rw [if_pos h]
      rw [firstDiff_pos_iff b xs (i + 1)]
      constructor
      · rintro ⟨k, hk, heq, hlt⟩
        refine ⟨k + 1, by simpa using hk, ?_, ?_⟩
        · intro j hj
          cases j with
          | zero => simpa using (by omega : x = b.getD i 0)
          | succ j' =>
            have := heq j' (by omega)
            simpa [Nat.add_assoc, Nat.add_comm 1 j'] using this
        · have : i + (k + 1) = i + 1 + k := by omega
          simpa [this] using hlt
      · rintro ⟨k, hk, heq, hlt⟩
        cases k with
        | zero =>
          exfalso
          simp only [List.getD_cons_zero, Nat.add_zero] at hlt
          omega
        | succ k' =>
          refine ⟨k', by simpa using hk, ?_, ?_⟩
          · intro j hj
            have := heq (j + 1) (by omega)
            simpa [Nat.add_assoc, Nat.add_comm 1 j] using this
          · have : i + 1 + k' = i + (k' + 1) := by omega
            simpa [this] using hlt
    · rw [if_neg h]
      constructor
      · intro hpos
        exact ⟨0, by simp, by omega, by simpa using (by omega : b.getD i 0 < x)⟩
      · rintro ⟨k, hk, heq, hlt⟩
        cases k with
        | zero => simp only [List.getD_cons_zero, Nat.add_zero] at hlt; omega
        | succ k' =>
          have := heq 0 (by omega)
          simp only [List.getD_cons_zero, Nat.add_zero] at this
          omega

theorem firstDiff_neg_iff (b : List Int) :
    ∀ (l : List Int) (i : Nat),
      (firstDiff b l i < 0 ↔
        ∃ k < l.length, (∀ j < k, l.getD j 0 = b.getD (i + j) 0) ∧
          l.getD k 0 < b.getD (i + k) 0)
  | [], i => by simp [firstDiff]
  | x :: xs, i => by
    simp only [firstDiff]
    by_cases h : x - b.getD i 0 = 0
    · rw [if_pos h]
      rw [firstDiff_neg_iff b xs (i + 1)]
      constructor
      · rintro ⟨k, hk, heq, hlt⟩
        refine ⟨k + 1, by simpa using hk, ?_, ?_⟩
        · intro j hj
          cases j with
          | zero => simpa using (by omega : x = b.getD i 0)
          | succ j' =>
            have := heq j' (by omega)
            simpa [Nat.add_assoc, Nat.add_comm 1 j'] using this
        · have : i + (k + 1) = i + 1 + k := by omega
          simpa [this] using hlt
      · rintro ⟨k, hk, heq, hlt⟩
        cases k with
        | zero =>
          exfalso
          simp only [List.getD_cons_zero, Nat.add_zero] at hlt
          omega
        | succ k' =>
          refine ⟨k', by simpa using hk, ?_, ?_⟩
          · intro j hj
            have := heq (j + 1) (by omega)
            simpa [Nat.add_assoc, Nat.add_comm 1 j] using this
          · have : i + 1 + k' = i + (k' + 1) := by omega
            simpa [this] using hlt
    · rw [if_neg h]
      constructor
      · intro hneg
        exact ⟨0, by simp, by omega, by simpa using (by omega : x < b.getD i 0)⟩
      · rintro ⟨k, hk, heq, hlt⟩
        cases k with
        | zero => simp only [List.getD_cons_zero, Nat.add_zero] at hlt; omega
        | succ k' =>
          have := heq 0 (by omega)
          simp only [List.getD_cons_zero, Nat.add_zero] at this
          omega

theorem firstDiff_eq_zero_iff (b : List Int) :
    ∀ (l : List Int) (i : Nat),
      (firstDiff b l i = 0 ↔ ∀ j < l.length, l.getD j 0 = b.getD (i + j) 0)
  | [], i => by simp [firstDiff]
  | x :: xs, i => by
    simp only [firstDiff]
    by_cases h : x - b.getD i 0 = 0
    · rw [if_pos h]
      rw [firstDiff_eq_zero_iff b xs (i + 1)]
      constructor
      · intro heq j hj
        cases j with
        | zero => simpa using (by omega : x = b.getD i 0)
        | succ j' =>
          have := heq j' (by simpa using hj)
          simpa [Nat.add_assoc, Nat.add_comm 1 j'] using this
      · intro heq j hj
        have := heq (j + 1) (by simpa using hj)
        simpa [Nat.add_assoc, Nat.add_comm 1 j] using this
    · rw [if_neg h]
      constructor
      · intro h0; exact absurd h0 h
      · intro heq
        have := heq 0 (by simp)
        simp only [List.getD_cons_zero, Nat.add_zero] at this
        omega

theorem semverCompareInt_pos_iff (a b : List Int) :
    0 < semverCompareInt a b ↔
      ∃ k < a.length, (∀ j < k, a.getD j 0 = b.getD j 0) ∧ b.getD k 0 < a.getD k 0 := by
  unfold semverCompareInt
  rw [cmpFold_eq_firstDiff, firstDiff_pos_iff]
  simp

theorem semverCompareInt_neg_iff (a b : List Int) :
    semverCompareInt a b < 0 ↔
      ∃ k < a.length, (∀ j < k, a.getD j 0 = b.getD j 0) ∧ a.getD k 0 < b.getD k 0 := by
  unfold semverCompareInt
  rw [cmpFold_eq_firstDiff, firstDiff_neg_iff]
  simp

theorem semverCompareInt_eq_zero_iff (a b : List Int) :
    semverCompareInt a b = 0 ↔ ∀ j < a.length, a.getD j 0 = b.getD j 0 := by
  unfold semverCompareInt
  rw [cmpFold_eq_firstDiff, firstDiff_eq_zero_iff]
  simp

theorem isGreaterAux_iff (v1 v2 : List Int) :
    ∀ (fuel i : Nat), max v1.length v2.length ≤ i + fuel →
      (isGreaterAux v1 v2 i fuel = true ↔
        ∃ k, i ≤ k ∧ (∀ j, i ≤ j → j < k → v1.getD j 0 = v2.getD j 0) ∧
          v2.getD k 0 < v1.getD k 0)
  | 0, i, hle => by
    simp only [isGreaterAux]
    constructor
    · intro h; cases h
    · rintro ⟨k, hik, _, hlt⟩
      have h1 : v1.getD k 0 = 0 := List.getD_eq_default _ _ (by omega)
      have h2 : v2.getD k 0 = 0 := List.getD_eq_default _ _ (by omega)
      rw [h1, h2] at hlt
      exact absurd hlt (by omega)
  | fuel + 1, i, hle => by
    simp only [isGreaterAux]
    by_cases hgt : v2.getD i 0 < v1.getD i 0
    · rw [if_pos hgt]
      constructor
      · intro _
        exact ⟨i, Nat.le_refl i, fun j h1 h2 => absurd h2 (by omega), hgt⟩
      · intro _; rfl
    · rw [if_neg hgt]
      by_cases hlt : v1.getD i 0 < v2.getD i 0
      · rw [if_pos hlt]
        constructor
        · intro h; cases h
        · rintro ⟨k, hik, heq, hlt2⟩
          rcases Nat.lt_or_ge i k with hik2 | hik2
          · have := heq i (Nat.le_refl i) hik2; omega
          · have hkeq : k = i := by omega
            subst hkeq; omega
      · rw [if_neg hlt]
        have heqi : v1.getD i 0 = v2.getD i 0 := by omega
        rw [isGreaterAux_iff v1 v2 fuel (i + 1) (by omega)]
        constructor
        · rintro ⟨k, hik, heq, h2⟩
          refine ⟨k, by omega, ?_, h2⟩
          intro j hj1 hj2
          rcases Nat.eq_or_lt_of_le hj1 with h | h
          · rw [← h]; exact heqi
          · exact heq j (by omega) hj2
        · rintro ⟨k, hik, heq, h2⟩
          refine ⟨k, ?_, fun j hj1 hj2 => heq j (by omega) hj2, h2⟩
          rcases Nat.eq_or_lt_of_le hik with h | h
          · exfalso; rw [← h] at h2; omega
          · omega

theorem isGreaterInt_iff_GTseq (u v : List Int) :
    isGreaterInt u v = true ↔ GTseq u v := by
  unfold isGreaterInt GTseq
  rw [isGreaterAux_iff u v (max u.length v.length) 0 (by omega)]
  constructor
  · rintro ⟨k, _, heq, hlt⟩
    exact ⟨k, fun j hj => heq j (by omega) hj, hlt⟩
  · rintro ⟨k, heq, hlt⟩
    exact ⟨k, by omega, fun j _ hj => heq j hj, hlt⟩

/-! ## Order-theoretic facts about the padded first-difference relation -/

theorem GTseq_asymm {u v : List Int} (h : GTseq u v) : ¬ GTseq v u := by
  rintro ⟨k2, heq2, hlt2⟩
  obtain ⟨k1, heq1, hlt1⟩ := h
  rcases Nat.lt_trichotomy k1 k2 with hc | hc | hc
  · have := heq2 k1 hc; omega
  · subst hc; omega
  · have := heq1 k2 hc; omega

theorem GTseq_irrefl (u : List Int) : ¬ GTseq u u := by
  rintro ⟨k, _, hlt⟩
  omega

theorem GTseq_trans {u v w : List Int} (h1 : GTseq u v) (h2 : GTseq v w) : GTseq u w := by
  obtain ⟨k1, heq1, hlt1⟩ := h1
  obtain ⟨k2, heq2, hlt2⟩ := h2
  rcases Nat.lt_trichotomy k1 k2 with hc | hc | hc
  · exact ⟨k1, fun j hj => (heq1 j hj).trans (heq2 j (by omega)),
      by have := heq2 k1 hc; omega⟩
  · subst hc
    exact ⟨k1, fun j hj => (heq1 j hj).trans (heq2 j hj), by omega⟩
  · exact ⟨k2, fun j hj => (heq1 j (by omega)).trans (heq2 j hj),
      by have := heq1 k2 hc; omega⟩

theorem GTseq_trichotomy (u v : List Int) : EQseq u v ∨ GTseq u v ∨ GTseq v u := by
  by_cases h : ∀ j, u.getD j 0 = v.getD j 0
  · exact Or.inl h
  · push_neg at h
    have hex : ∃ j, u.getD j 0 ≠ v.getD j 0 := h
    have hk : u.getD (Nat.find hex) 0 ≠ v.getD (Nat.find hex) 0 := Nat.find_spec hex
    have hmin : ∀ j < Nat.find hex, u.getD j 0 = v.getD j 0 := by
      intro j hj
      have := Nat.find_min hex hj
      simpa using this
    rcases lt_or_gt_of_ne hk with hc | hc
    · exact Or.inr (Or.inr ⟨Nat.find hex, fun j hj => (hmin j hj).symm, hc⟩)
    · exact Or.inr (Or.inl ⟨Nat.find hex, hmin, hc⟩)

theorem GTseq_not_gt_trans {u v w : List Int} (h1 : ¬ GTseq u v) (h2 : ¬ GTseq v w) :
    ¬ GTseq u w := by
  intro h
  rcases GTseq_trichotomy u v with he | hgt | hlt
  · apply h2
    obtain ⟨k, heq, hlt'⟩ := h
    refine ⟨k, fun j hj => (he j).symm.trans (heq j hj), ?_⟩
    rw [← he k]
    exact hlt'
  · exact h1 hgt
  · exact h2 (GTseq_trans hlt h)

theorem semverCompareInt_pos_GTseq {a b : List Int} (h : 0 < semverCompareInt a b) :
    GTseq a b := by
  obtain ⟨k, _, heq, hlt⟩ := (semverCompareInt_pos_iff a b).mp h
  exact ⟨k, heq, hlt⟩

theorem semverCompareInt_nonpos_not_GTseq {a b : List Int} (hb : nonnegTok b)
    (h : semverCompareInt a b ≤ 0) : ¬ GTseq a b := by
  rintro ⟨k, heq, hlt⟩
  rcases lt_or_eq_of_le h with hneg | hzero
  · obtain ⟨k0, _, heq0, hlt0⟩ := (semverCompareInt_neg_iff a b).mp hneg
    rcases Nat.lt_trichotomy k k0 with hc | hc | hc
    · have := heq0 k hc; omega
    · subst hc; omega
    · have := heq k0 hc; omega
  · have hall := (semverCompareInt_eq_zero_iff a b).mp hzero
    by_cases hka : k < a.length
    · have := hall k hka; omega
    · have ha0 : a.getD k 0 = 0 := List.getD_eq_default _ _ (by omega)
      have hb0 : 0 ≤ b.getD k 0 := by
        by_cases hkb : k < b.length
        · rw [List.getD_eq_getElem _ _ hkb]
          exact hb _ (List.getElem_mem hkb)
        · rw [List.getD_eq_default _ _ (by omega)]
      rw [ha0] at hlt
      omega

theorem isGreaterInt_self (u : List Int) : isGreaterInt u u = false := by
  cases h : isGreaterInt u u with
  | false => rfl
  | true =>
    obtain ⟨k, _, hlt⟩ := (isGreaterInt_iff_GTseq u u).mp h
    omega

theorem isGreaterVersion_self (s : String) : isGreaterVersion s s = false :=
  isGreaterInt_self _

/-! ## Lifting the NaN-free comparator out of the JS-number fold -/

theorem optGetD (v : List (Option Int)) :
    ∀ i : Nat, v.all Option.isSome = true →
      v.getD i (some 0) = some ((v.map jsCoerce).getD i 0) := by
  induction v with
  | nil => intro i _; simp
  | cons x xs ih =>
    intro i hall
    simp only [List.all_cons, Bool.and_eq_true] at hall
    obtain ⟨hx, hxs⟩ := hall
    cases i with
    | zero =>
      cases x with
      | none => cases hx
      | some n => simp [jsCoerce]
    | succ i' =>
      simp only [List.getD_cons_succ, List.map_cons]
      exact ih i' hxs

theorem semverFold_lift (v : List (Option Int)) (hv : v.all Option.isSome = true) :
    ∀ (u : List (Option Int)) (i : Nat) (c : Int), u.all Option.isSome = true →
      semverFold v u i (some c) =
        some (cmpFold (v.map jsCoerce) (u.map jsCoerce) i c) := by
  intro u
  induction u with
  | nil => intro i c _; rfl
  | cons x xs ih =>
    intro i c hall
    simp only [List.all_cons, Bool.and_eq_true] at hall
    obtain ⟨hx, hxs⟩ := hall
    cases x with
    | none => cases hx
    | some n =>
      simp only [semverFold, List.map_cons, cmpFold]
      rw [optGetD v i hv]
      have hsub : jsSub (some n) (some ((v.map jsCoerce).getD i 0)) =
          some (n - (v.map jsCoerce).getD i 0) := rfl
      rw [hsub]
      have hor : jsOr (some c) (some (n - (v.map jsCoerce).getD i 0)) =
          some (if c ≠ 0 then c else n - (v.map jsCoerce).getD i 0) := by
        by_cases hc : c = 0
        · subst hc; simp [jsOr, jsTruthyNum]
        · simp [jsOr, jsTruthyNum, hc]
      rw [hor]
      rw [ih (i + 1) _ hxs]
      simp [jsCoerce]

theorem semverCompareP_lift (u v : List (Option Int)) (hu : u.all Option.isSome = true)
    (hv : v.all Option.isSome = true) :
    semverCompareP u v = some (semverCompareInt (u.map jsCoerce) (v.map jsCoerce)) :=
  semverFold_lift v hv u 0 0 hu

theorem digitsVal_nonneg (cs : List Char) : 0 ≤ digitsVal cs := by
  suffices h : ∀ (l : List Char) (n : Int), 0 ≤ n →
      0 ≤ l.foldl (fun m c => 10 * m + Int.ofNat (c.toNat - 48)) n by
    exact h cs 0 (le_refl 0)
  intro l
  induction l with
  | nil => intro n hn; exact hn
  | cons c cs ih =>
    intro n hn
    refine ih _ ?_
    show 0 ≤ 10 * n + Int.ofNat (c.toNat - 48)
    have h48 : (0:Int) ≤ Int.ofNat (c.toNat - 48) := Int.ofNat_nonneg _
    omega

theorem jsNumber_nonneg {cs : List Char} {n : Int} (h : jsNumber cs = some n) : 0 ≤ n := by
  unfold jsNumber at h
  by_cases h1 : cs = []
  · rw [if_pos h1] at h
    cases h
    exact le_refl 0
  · rw [if_neg h1] at h
    by_cases h2 : cs.all Char.isDigit
    · rw [if_pos h2] at h
      cases h
      exact digitsVal_nonneg cs
    · rw [if_neg h2] at h
      cases h

theorem parseTag_coerced_nonneg (t : String) : nonnegTok ((parseTag t).map jsCoerce) := by
  intro x hx
  obtain ⟨o, ho, rfl⟩ := List.mem_map.mp hx
  cases o with
  | none => exact le_refl 0
  | some n =>
    obtain ⟨g, _, hg⟩ := List.mem_map.mp ho
    exact jsNumber_nonneg hg

theorem stageTok_nonneg (st : Stage) : nonnegTok (stageTok st) := by
  unfold stageTok
  match st.tags with
  | some (some t) => exact parseTag_coerced_nonneg t
  | some none => intro x hx; cases hx
  | none => intro x hx; cases hx

theorem semverSort_good {a b : Stage} (ha : goodStage a) (hb : goodStage b) :
    semverSort a b = .ok (some (semverCompareInt (stageTok a) (stageTok b))) := by
  obtain ⟨-, ta, hta, hsa⟩ := ha
  obtain ⟨-, tb, htb, hsb⟩ := hb
  simp only [semverSort, stageTok, hta, htb]
  rw [semverCompareP_lift _ _ hsa hsb]

theorem exceptBindOk {α β ε : Type} (a : α) (f : α → Except ε β) :
    (Except.ok a >>= f) = f a := rfl

theorem jsPos_some (n : Int) : jsPos (some n) = true ↔ 0 < n := by
  simp [jsPos]

theorem insertStageRev_good (x : Stage) (hx : goodStage x) :
    ∀ acc : List Stage, (∀ y ∈ acc, goodStage y) →
      acc.Pairwise (fun p q => stageLE q p) →
      ∃ out, insertStageRev x acc = .ok out ∧
        out.Pairwise (fun p q => stageLE q p) ∧
        (∀ y ∈ out, goodStage y) ∧ out.Perm (x :: acc)
  | [], _, _ => ⟨[x], rfl, by simp, by simpa using hx, List.Perm.refl _⟩
  | y :: ys, hg, hp => by
    have hy : goodStage y := hg y (by simp)
    have hys : ∀ z ∈ ys, goodStage z := fun z hz => hg z (by simp [hz])
    obtain ⟨hyrel, hptail⟩ := List.pairwise_cons.mp hp
    have hcmp := semverSort_good hy hx
    simp only [insertStageRev, hcmp, exceptBindOk]
    by_cases hpos : jsPos (some (semverCompareInt (stageTok y) (stageTok x))) = true
    · rw [if_pos hpos]
      have hgt : GTseq (stageTok y) (stageTok x) :=
        semverCompareInt_pos_GTseq ((jsPos_some _).mp hpos)
      obtain ⟨r, hr, hpr, hgr, hperm⟩ := insertStageRev_good x hx ys hys hptail
      refine ⟨y :: r, ?_, ?_, ?_, ?_⟩
      · rw [hr, exceptBindOk]
      · refine List.pairwise_cons.mpr ⟨?_, hpr⟩
        intro z hz
        rcases List.mem_cons.mp ((hperm.mem_iff).mp hz) with hzx | hzys
        · rw [hzx]
          exact GTseq_asymm hgt
        · exact hyrel z hzys
      · intro z hz
        rcases List.mem_cons.mp hz with hzy | hzr
        · rw [hzy]; exact hy
        · exact hgr z hzr
      · exact (hperm.cons y).trans (List.Perm.swap x y ys)
    · rw [if_neg hpos]
      have hle : stageLE y x := by
        apply semverCompareInt_nonpos_not_GTseq (stageTok_nonneg x)
        rcases Nat.lt_or_ge 0 1 with _ | _
        · by_contra hc
          exact hpos ((jsPos_some _).mpr (by omega))
        · by_contra hc
          exact hpos ((jsPos_some _).mpr (by omega))
      refine ⟨x :: y :: ys, rfl, ?_, ?_, List.Perm.refl _⟩
      · refine List.pairwise_cons.mpr ⟨?_, hp⟩
        intro z hz
        rcases List.mem_cons.mp hz with hzy | hzys
        · rw [hzy]; exact hle
        · exact GTseq_not_gt_trans (hyrel z hzys) hle
      · intro z hz
        rcases List.mem_cons.mp hz with hzx | hz2
        · rw [hzx]; exact hx
        · exact hg z hz2

theorem sortAccum :
    ∀ (l acc : List Stage), (∀ y ∈ l, goodStage y) → (∀ y ∈ acc, goodStage y) →
      acc.Pairwise (fun p q => stageLE q p) →
      ∃ out, l.foldlM (fun acc x => insertStageRev x acc) acc = .ok out ∧
        out.Pairwise (fun p q => stageLE q p) ∧ (∀ y ∈ out, goodStage y) ∧
        out.Perm (l ++ acc)
  | [], acc, _, hga, hpa => ⟨acc, rfl, hpa, hga, by simp⟩
  | x :: xs, acc, hgl, hga, hpa => by
    have hx : goodStage x := hgl x (by simp)
    obtain ⟨a1, ha1, hp1, hg1, hperm1⟩ := insertStageRev_good x hx acc hga hpa
    obtain ⟨out, hout, hpo, hgo, hpermo⟩ :=
      sortAccum xs a1 (fun y hy => hgl y (by simp [hy])) hg1 hp1
    refine ⟨out, ?_, hpo, hgo, ?_⟩
    · rw [List.foldlM_cons, ha1, exceptBindOk]
      exact hout
    · refine hpermo.trans ?_
      refine (List.Perm.append_left xs hperm1).trans ?_
      exact List.perm_middle

theorem sortStages_good (l : List Stage) (hg : ∀ y ∈ l, goodStage y) :
    ∃ out, sortStages l = .ok out ∧ out.Pairwise stageLE ∧ out.Perm l ∧
      ∀ y ∈ out, goodStage y := by
  obtain ⟨r, hr, hpr, hgr, hperm⟩ := sortAccum l [] hg (by simp) (by simp)
  refine ⟨r.reverse, ?_, ?_, ?_, ?_⟩
  · unfold sortStages
    rw [hr, exceptBindOk]
  · exact List.pairwise_reverse.mpr hpr
  · exact (r.reverse_perm).trans (by simpa using hperm)
  · intro y hy
    exact hgr y (List.mem_reverse.mp hy)

/-! ## The retention partition -/

theorem filter_not_contains_append {α : Type} [DecidableEq α] (l₁ l₂ : List α)
    (h : (l₁ ++ l₂).Nodup) :
    (l₁ ++ l₂).filter (fun s => !(l₂.contains s)) = l₁ := by
  obtain ⟨h1, h2, hdisj⟩ := List.nodup_append.mp h
  rw [List.filter_append]
  have ha : l₁.filter (fun s => !(l₂.contains s)) = l₁ := by
    apply List.filter_eq_self.mpr
    intro a hal
    simp only [Bool.not_eq_true']
    rw [← Bool.not_eq_true]
    intro hc
    exact hdisj hal (List.elem_iff.mp hc)
  have hb : l₂.filter (fun s => !(l₂.contains s)) = [] := by
    apply List.filter_eq_nil_iff.mpr
    intro a hal
    simp [hal]
  rw [ha, hb, List.append_nil]

theorem stagesToDeleteOf_eq_take (l : List Stage) (n : Nat) (hn : 0 < n) (h : l.Nodup) :
    stagesToDeleteOf l n = l.take (l.length - n) := by
  unfold stagesToDeleteOf stagesToKeepOf jsSliceNeg
  rw [if_neg (by omega)]
  have hsplit : l = l.take (l.length - n) ++ l.drop (l.length - n) :=
    (List.take_append_drop _ l).symm
  calc l.filter (fun s => !((l.drop (l.length - n)).contains s))
      = (l.take (l.length - n) ++ l.drop (l.length - n)).filter
          (fun s => !((l.drop (l.length - n)).contains s)) := by rw [← hsplit]
    _ = l.take (l.length - n) :=
        filter_not_contains_append _ _ (by rw [← hsplit]; exact h)

/-! ## The teardown loop as a trace -/

theorem runLoopAux (service stage : String) (del wait : String → Except String Unit) :
    ∀ (stages : List Stage) (acc : List LogEvent × List CfCall),
      stages.foldl
        (fun acc st =>
          let r := processStage service stage del wait st
          (acc.1 ++ r.1, acc.2 ++ r.2)) acc =
      (acc.1 ++ (stages.map (fun st => (processStage service stage del wait st).1)).flatten,
       acc.2 ++ (stages.map (fun st => (processStage service stage del wait st).2)).flatten)
  | [], acc => by simp
  | st :: sts, acc => by
    simp only [List.foldl_cons, List.map_cons, List.flatten]
    rw [runLoopAux service stage del wait sts]
    simp [List.append_assoc]

theorem runLoop_eq (service stage : String) (del wait : String → Except String Unit)
    (stages : List Stage) :
    runLoop service stage del wait stages =
      ((stages.map (fun st => (processStage service stage del wait st).1)).flatten,
       (stages.map (fun st => (processStage service stage del wait st).2)).flatten) := by
  unfold runLoop
  rw [runLoopAux]
  simp

theorem deleteNames_processStage (service stage : String)
    (del wait : String → Except String Unit) (st : Stage) :
    deleteNames (processStage service stage del wait st).2 =
      (expectedDeleteName service stage st).toList := by
  unfold processStage expectedDeleteName
  rcases hn : st.stageName with - | sn
  · simp [deleteNames]
  · rcases ha : aliasOf st with - | v
    · simp [deleteNames]
    · rcases hd : del (mkStackName service stage v) with m | u
      · simp [deleteNames, hd]
      · rcases hw : wait (mkStackName service stage v) with m | u
        · simp [deleteNames, hd, hw]
        · simp [deleteNames, hd, hw]

theorem deleteNames_runLoop (service stage : String)
    (del wait : String → Except String Unit) :
    ∀ stages : List Stage,
      deleteNames (runLoop service stage del wait stages).2 =
        stages.filterMap (expectedDeleteName service stage)
  | [] => by simp [runLoop_eq, deleteNames]
  | st :: sts => by
    rw [runLoop_eq]
    simp only [List.map_cons, List.flatten, List.filterMap_cons]
    unfold deleteNames
    rw [List.filterMap_append]
    have h1 := deleteNames_processStage service stage del wait st
    unfold deleteNames at h1
    rw [h1]
    have h2 := deleteNames_runLoop service stage del wait sts
    rw [runLoop_eq] at h2
    unfold deleteNames at h2
    simp only at h2
    rw [h2]
    rcases expectedDeleteName service stage st with - | n
    · simp
    · simp

theorem mem_runLoop_logs (service stage : String) (del wait : String → Except String Unit)
    (stages : List Stage) (st : Stage) (hst : st ∈ stages) (e : LogEvent)
    (he : e ∈ (processStage service stage del wait st).1) :
    e ∈ (runLoop service stage del wait stages).1 := by
  rw [runLoop_eq]
  simp only [List.mem_flatten]
  exact ⟨(processStage service stage del wait st).1, List.mem_map_of_mem _ hst, he⟩

/-! ## Claim theorems -/

/-- C2: Retention partition.  For every deployed-version list (pairwise
distinct records, as JS object references are) and every positive
retention count, the kept list is exactly the tail of length
`min(retentionCount, length)`, the retired list is exactly the remaining
prefix, the two are disjoint and together cover the input; empty input
gives two empty lists, and `retentionCount ≥ length` retires nothing. -/
theorem retention_partition (l : List Stage) (n : Nat) (hn : 0 < n) (hd : l.Nodup) :
    stagesToKeepOf l n = l.drop (l.length - n) ∧
    (stagesToKeepOf l n).length = min n l.length ∧
    stagesToDeleteOf l n = l.take (l.length - n) ∧
    List.Disjoint (stagesToKeepOf l n) (stagesToDeleteOf l n) ∧
    stagesToDeleteOf l n ++ stagesToKeepOf l n = l ∧
    (l = [] → stagesToKeepOf l n = [] ∧ stagesToDeleteOf l n = []) ∧
    (l.length ≤ n → stagesToKeepOf l n = l ∧ stagesToDeleteOf l n = []) := by
  have hkeep : stagesToKeepOf l n = l.drop (l.length - n) := by
    unfold stagesToKeepOf jsSliceNeg
    rw [if_neg (by omega)]
  have hdel : stagesToDeleteOf l n = l.take (l.length - n) :=
    stagesToDeleteOf_eq_take l n hn hd
  have hsplit : l.take (l.length - n) ++ l.drop (l.length - n) = l :=
    List.take_append_drop _ l
  have hnodup : (l.take (l.length - n) ++ l.drop (l.length - n)).Nodup := by
    rw [hsplit]; exact hd
  obtain ⟨-, -, hdisj⟩ := List.nodup_append.mp hnodup
  refine ⟨hkeep, ?_, hdel, ?_, ?_, ?_, ?_⟩
  · rw [hkeep, List.length_drop]
    omega
  · rw [hkeep, hdel]
    exact fun a ha hb => hdisj hb ha
  · rw [hkeep, hdel, hsplit]
  · intro h
    subst h
    simp [stagesToKeepOf, stagesToDeleteOf, jsSliceNeg]
  · intro h
    have h0 : l.length - n = 0 := by omega
    constructor
    · rw [hkeep, h0, List.drop_zero]
    · rw [hdel, h0, List.take_zero]

/-- Witness for C2 at a concrete three-element list with retention 2. -/
theorem retention_partition_witness :
    stagesToDeleteOf
      [⟨some "v1", some (some "v1-0-0")⟩, ⟨some "v2", some (some "v1-1-0")⟩,
        ⟨some "v3", some (some "v1-2-0")⟩] 2 =
      [⟨some "v1", some (some "v1-0-0")⟩] := by
  have h := (retention_partition
    [⟨some "v1", some (some "v1-0-0")⟩, ⟨some "v2", some (some "v1-1-0")⟩,
      ⟨some "v3", some (some "v1-2-0")⟩] 2 (by decide) (by decide)).2.2.1
  rw [h]
  rfl

/-- C8: the comparison `isGreaterVersion` performs is exactly the
left-to-right component-wise integer comparison with missing trailing
components read as zero; numerically (not lexicographically on the
strings) `v2-10-0 > v2-9-9`, and `v1` is equal to `v1-0-0` (neither is
greater). -/
theorem componentwise_comparison :
    (∀ a b : List Int, isGreaterInt a b = true ↔
      ∃ k, (∀ j < k, a.getD j 0 = b.getD j 0) ∧ b.getD k 0 < a.getD k 0) ∧
    isGreaterVersion "v2-10-0" "v2-9-9" = true ∧
    isGreaterVersion "v1" "v1-0-0" = false ∧
    isGreaterVersion "v1-0-0" "v1" = false :=
  ⟨fun a b => isGreaterInt_iff_GTseq a b, by decide, by decide, by decide⟩

/-- Witness for C8: the characterization evaluated at `(2,10,0)` against
`(2,9,9)`. -/
theorem componentwise_comparison_witness :
    ∃ k, (∀ j < k, ([2, 10, 0] : List Int).getD j 0 = ([2, 9, 9] : List Int).getD j 0) ∧
      ([2, 9, 9] : List Int).getD k 0 < ([2, 10, 0] : List Int).getD k 0 :=
  (componentwise_comparison.1 [2, 10, 0] [2, 9, 9]).mp (by decide)

/-- C10 (implicit): when the latest deployed stage has a tags object
without an `ALIAS` entry, `validateVersion` reaches the comparison and
dereferences `undefined` (`isGreaterVersion(candidate, undefined)`),
producing an untyped runtime error, not a typed validation result. -/
theorem alias_absent_type_error (rp av : String) (r : RegistryView) (l : List Stage)
    (st : Stage) (hrp : rp ≠ "") (hfmt : matchesVersionRegex av = true)
    (hr : getStagesInOrder r = .ok (some l)) (hlast : l.getLast? = some st)
    (htags : st.tags = some none) :
    validateVersion (some rp) (some av) r = .error .typeError := by
  simp [validateVersion, jsFalsyStr, hrp, hfmt, hr, hlast, htags]

/-- Witness for C10: a registry whose single deployed stage has a tags
object with no `ALIAS`. -/
theorem alias_absent_type_error_witness :
    validateVersion (some "5") (some "v9-9-9")
      ⟨some "svc", some "api", some [⟨some "v0", some none⟩]⟩ = .error .typeError :=
  alias_absent_type_error "5" "v9-9-9"
    ⟨some "svc", some "api", some [⟨some "v0", some none⟩]⟩
    [⟨some "v0", some none⟩] ⟨some "v0", some none⟩
    (by decide) (by decide) rfl rfl rfl

/-- C5 counterexample: `cleanupVersions` returns no report.  In the
two-record failure-isolation scenario (retire set `v1-0-0` whose delete
fails and `v1-1-0` whose delete succeeds) the operation's returned
value is the bare unit value — the code's `Promise<void>` — carrying no
`{kept, retiredSuccessfully, retiredWithError, skipped}` counts. -/
theorem cleanup_report_cex :
    (cleanupVersions
      ⟨some "svc", some "api",
        some [⟨some "v1", some (some "v1-0-0")⟩, ⟨some "v2", some (some "v1-1-0")⟩,
          ⟨some "v3", some (some "v1-2-0")⟩]⟩ "dev" 1
      (fun n => if n = "svc-dev-v1-0-0" then .error "boom" else .ok ())
      (fun _ => .ok ())).1 = Except.ok () := rfl

/-- C5 amended: the run returns void; the per-item outcomes are visible
only in the trace.  In the scenario above both retired records are
attempted (delete is called for both, the second despite the first
failing), and the trace holds exactly one error log and one success
log. -/
theorem cleanup_report_amended :
    (cleanupVersions
      ⟨some "svc", some "api",
        some [⟨some "v1", some (some "v1-0-0")⟩, ⟨some "v2", some (some "v1-1-0")⟩,
          ⟨some "v3", some (some "v1-2-0")⟩]⟩ "dev" 1
      (fun n => if n = "svc-dev-v1-0-0" then .error "boom" else .ok ())
      (fun _ => .ok ())).1 = Except.ok () ∧
    deleteNames
      (cleanupVersions
        ⟨some "svc", some "api",
          some [⟨some "v1", some (some "v1-0-0")⟩, ⟨some "v2", some (some "v1-1-0")⟩,
            ⟨some "v3", some (some "v1-2-0")⟩]⟩ "dev" 1
        (fun n => if n = "svc-dev-v1-0-0" then .error "boom" else .ok ())
        (fun _ => .ok ())).2.2 = ["svc-dev-v1-0-0", "svc-dev-v1-1-0"] ∧
    ((cleanupVersions
      ⟨some "svc", some "api",
        some [⟨some "v1", some (some "v1-0-0")⟩, ⟨some "v2", some (some "v1-1-0")⟩,
          ⟨some "v3", some (some "v1-2-0")⟩]⟩ "dev" 1
      (fun n => if n = "svc-dev-v1-0-0" then .error "boom" else .ok ())
      (fun _ => .ok ())).2.1.countP isErrorLog = 1 ∧
     (cleanupVersions
      ⟨some "svc", some "api",
        some [⟨some "v1", some (some "v1-0-0")⟩, ⟨some "v2", some (some "v1-1-0")⟩,
          ⟨some "v3", some (some "v1-2-0")⟩]⟩ "dev" 1
      (fun n => if n = "svc-dev-v1-0-0" then .error "boom" else .ok ())
      (fun _ => .ok ())).2.1.countP isSuccessLog = 1) :=
  ⟨rfl, rfl, rfl, rfl⟩

/-- C6 (code bug): a retire-candidate whose tags object lacks the
`ALIAS` entry is not skipped-with-log — the `semverSort` comparator
dereferences the missing tag (`a.tags!.ALIAS.replace`) while
`getStagesInOrder` sorts, so the whole cleanup run aborts with an
untyped error, no log, and no resource-manager call (first conjunct).
The skip-with-log path is reachable only for a stage with no tags
object at all that the sort happens never to read on the throwing side
(second conjunct): it is skipped with an info log and no delete/wait
call while the other records proceed. -/
theorem unreadable_tag_aborts_cleanup :
    cleanupVersions
      ⟨some "svc", some "api",
        some [⟨some "v0", some none⟩, ⟨some "v2", some (some "v1-1-0")⟩]⟩ "dev" 1
      (fun _ => .ok ()) (fun _ => .ok ()) = (.error .typeError, [], []) ∧
    cleanupVersions
      ⟨some "svc", some "api",
        some [⟨some "v1", some (some "v1-0-0")⟩, ⟨some "v2", some (some "v1-1-0")⟩,
          ⟨some "vz", none⟩]⟩ "dev" 1
      (fun _ => .ok ()) (fun _ => .ok ()) =
      (.ok (),
       [.info "ALIAS not present for stage vz",
        .info "Removing stack for version: v1-0-0",
        .success "Successfully removed stack for version: v1-0-0"],
       [.deleteStack "svc-dev-v1-0-0", .waitFor "svc-dev-v1-0-0"]) :=
  ⟨rfl, rfl⟩

/-- C1: Failure isolation in the cleanup loop.  The delete calls issued
by the loop are exactly one per readable retired record, in order —
the right-hand side does not mention the delete/wait oracles, so no
failure ever suppresses the attempt for any later record — and every
failing delete or wait is caught and logged as an error naming the
version and the underlying message (the loop itself is total: it never
aborts). -/
theorem cleanup_failure_isolation (service stage : String)
    (del wait : String → Except String Unit) (stages : List Stage) :
    deleteNames (runLoop service stage del wait stages).2 =
      stages.filterMap (expectedDeleteName service stage) ∧
    (∀ st ∈ stages, ∀ v m, st.stageName.isSome = true → aliasOf st = some v →
      del (mkStackName service stage v) = .error m →
      LogEvent.error ("Warning: Error removing version " ++ v ++ ": " ++ m) ∈
        (runLoop service stage del wait stages).1) ∧
    (∀ st ∈ stages, ∀ v m, st.stageName.isSome = true → aliasOf st = some v →
      del (mkStackName service stage v) = .ok () →
      wait (mkStackName service stage v) = .error m →
      LogEvent.error ("Warning: Error removing version " ++ v ++ ": " ++ m) ∈
        (runLoop service stage del wait stages).1) := by
  refine ⟨deleteNames_runLoop service stage del wait stages, ?_, ?_⟩
  · intro st hst v m hsn hv hdel
    obtain ⟨sn, hsn'⟩ := Option.isSome_iff_exists.mp hsn
    apply mem_runLoop_logs service stage del wait stages st hst
    simp [processStage, hsn', hv, hdel]
  · intro st hst v m hsn hv hdel hwait
    obtain ⟨sn, hsn'⟩ := Option.isSome_iff_exists.mp hsn
    apply mem_runLoop_logs service stage del wait stages st hst
    simp [processStage, hsn', hv, hdel, hwait]

/-- Witness for C1: with the first record's delete failing, the error
is logged and the second record's delete call is still issued. -/
theorem cleanup_failure_isolation_witness :
    LogEvent.error "Warning: Error removing version v1-0-0: boom" ∈
      (runLoop "svc" "dev"
        (fun n => if n = "svc-dev-v1-0-0" then .error "boom" else .ok ())
        (fun _ => .ok ())
        [⟨some "v1", some (some "v1-0-0")⟩, ⟨some "v2", some (some "v1-1-0")⟩]).1 :=
  (cleanup_failure_isolation "svc" "dev"
      (fun n => if n = "svc-dev-v1-0-0" then .error "boom" else .ok ())
      (fun _ => .ok ())
      [⟨some "v1", some (some "v1-0-0")⟩, ⟨some "v2", some (some "v1-1-0")⟩]).2.1
    ⟨some "v1", some (some "v1-0-0")⟩ (by simp) "v1-0-0" "boom" rfl rfl (by rfl)

/-- C3: Strict monotonic version gate.  Whenever the configuration
preconditions hold (truthy retention policy, format-valid candidate)
and the latest deployed stage exists with a readable `ALIAS` tag,
`validateVersion` succeeds exactly when `isGreaterVersion(candidate,
latest)` holds and otherwise fails with the version-not-increasing
error; a candidate equal to any string is never greater than it
(strict inequality), and `v1-2-0` over `v1-1-9` is accepted. -/
theorem strict_monotonic_gate :
    (∀ (rp av tag : String) (r : RegistryView) (l : List Stage) (st : Stage),
      rp ≠ "" → matchesVersionRegex av = true →
      getStagesInOrder r = .ok (some l) → l.getLast? = some st →
      st.tags = some (some tag) →
      validateVersion (some rp) (some av) r =
        (if isGreaterVersion av tag then .ok () else .error .versionNotIncreasing)) ∧
    (∀ s : String, isGreaterVersion s s = false) ∧
    isGreaterVersion "v1-2-0" "v1-1-9" = true := by
  refine ⟨?_, isGreaterVersion_self, by decide⟩
  intro rp av tag r l st hrp hfmt hr hlast htags
  simp [validateVersion, jsFalsyStr, hrp, hfmt, hr, hlast, htags]

/-- Witness for C3: a candidate equal to the latest deployed tag is
rejected with the version-not-increasing error. -/
theorem strict_monotonic_gate_witness :
    validateVersion (some "5") (some "v1-1-0")
      ⟨some "svc", some "api", some [⟨some "v2", some (some "v1-1-0")⟩]⟩ =
      .error .versionNotIncreasing := by
  have h := strict_monotonic_gate.1 "5" "v1-1-0" "v1-1-0"
    ⟨some "svc", some "api", some [⟨some "v2", some (some "v1-1-0")⟩]⟩
    [⟨some "v2", some (some "v1-1-0")⟩] ⟨some "v2", some (some "v1-1-0")⟩
    (by decide) (by decide) rfl rfl rfl
  rw [h, if_neg (by rw [strict_monotonic_gate.2.1 "v1-1-0"]; exact Bool.false_ne_true)]

/-- C4 counterexample: the sort comparator is not antisymmetric on
valid tokens of unequal component counts.  `compare((1),(1,0,5))`
evaluates to `0` (EQUAL — the reduce only scans the left argument's
components) while `compare((1,0,5),(1))` is positive (GREATER), so
"GREATER one way implies LESS the other way" fails at this concrete
input. -/
theorem comparator_consistency_cex :
    ¬ (∀ a b : List Int, nonnegTok a → nonnegTok b →
        0 < semverCompareInt a b → semverCompareInt b a < 0) := by
  intro h
  have := h [1, 0, 5] [1] (by unfold nonnegTok; decide) (by unfold nonnegTok; decide)
    (by decide)
  revert this
  decide

/-- C4 amended: on valid (non-negative) tokens `isGreater(a,b)` holds
exactly when the sort comparator orders `a` strictly after `b`
(`compare(a,b) > 0`), and GREATER is transitive; the comparator is
antisymmetric (sign-flip, and EQUAL is symmetric) on tokens with equal
component counts, but not in general for unequal counts — see the
counterexample. -/
theorem comparator_consistency_amended :
    (∀ a b : List Int, nonnegTok a → nonnegTok b →
      (isGreaterInt a b = true ↔ 0 < semverCompareInt a b)) ∧
    (∀ a b c : List Int, nonnegTok a → nonnegTok b → nonnegTok c →
      0 < semverCompareInt a b → 0 < semverCompareInt b c →
      0 < semverCompareInt a c) ∧
    (∀ a b : List Int, a.length = b.length →
      (0 < semverCompareInt a b ↔ semverCompareInt b a < 0) ∧
      (semverCompareInt a b = 0 ↔ semverCompareInt b a = 0)) := by
  refine ⟨?_, ?_, ?_⟩
  · intro a b _ hb
    constructor
    · intro h
      by_contra hc
      exact semverCompareInt_nonpos_not_GTseq hb (by omega)
        ((isGreaterInt_iff_GTseq a b).mp h)
    · intro h
      exact (isGreaterInt_iff_GTseq a b).mpr (semverCompareInt_pos_GTseq h)
  · intro a b c _ _ _ hab hbc
    obtain ⟨k1, hk1, heq1, hlt1⟩ := (semverCompareInt_pos_iff a b).mp hab
    obtain ⟨k2, hk2, heq2, hlt2⟩ := (semverCompareInt_pos_iff b c).mp hbc
    apply (semverCompareInt_pos_iff a c).mpr
    rcases Nat.lt_trichotomy k1 k2 with hc | hc | hc
    · exact ⟨k1, hk1, fun j hj => (heq1 j hj).trans (heq2 j (by omega)),
        by have := heq2 k1 hc; omega⟩
    · subst hc
      exact ⟨k1, hk1, fun j hj => (heq1 j hj).trans (heq2 j hj), by omega⟩
    · exact ⟨k2, by omega, fun j hj => (heq1 j (by omega)).trans (heq2 j hj),
        by have := heq1 k2 hc; omega⟩
  · intro a b hlen
    constructor
    · constructor
      · intro h
        obtain ⟨k, hk, heq, hlt⟩ := (semverCompareInt_pos_iff a b).mp h
        exact (semverCompareInt_neg_iff b a).mpr
          ⟨k, by omega, fun j hj => (heq j hj).symm, hlt⟩
      · intro h
        obtain ⟨k, hk, heq, hlt⟩ := (semverCompareInt_neg_iff b a).mp h
        exact (semverCompareInt_pos_iff a b).mpr
          ⟨k, by omega, fun j hj => (heq j hj).symm, hlt⟩
    · constructor
      · intro h
        have hall := (semverCompareInt_eq_zero_iff a b).mp h
        exact (semverCompareInt_eq_zero_iff b a).mpr
          (fun j hj => (hall j (by omega)).symm)
      · intro h
        have hall := (semverCompareInt_eq_zero_iff b a).mp h
        exact (semverCompareInt_eq_zero_iff a b).mpr
          (fun j hj => (hall j (by omega)).symm)

/-- Witness for C4 at concrete equal-length tokens. -/
theorem comparator_consistency_witness :
    isGreaterInt [1, 2, 0] [1, 1, 9] = true :=
  (comparator_consistency_amended.1 [1, 2, 0] [1, 1, 9]
    (by unfold nonnegTok; decide) (by unfold nonnegTok; decide)).mpr (by decide)

theorem getStagesInOrder_err (r : RegistryView) (e : VErr)
    (h : getStagesInOrder r = .error e) :
    e = .serviceNotDefined ∨ e = .restApiNotFound ∨ e = .typeError := by
  unfold getStagesInOrder at h
  by_cases h1 : r.service = none
  · rw [if_pos h1] at h
    exact Or.inl (by injection h with h2; exact h2.symm)
  · rw [if_neg h1] at h
    by_cases h2 : r.restApiId = none
    · rw [if_pos h2] at h
      exact Or.inr (Or.inl (by injection h with h3; exact h3.symm))
    · rw [if_neg h2] at h
      split at h
      · cases h
      · split at h
        · exact Or.inr (Or.inr (by injection h with h3; exact h3.symm))
        · cases h

theorem validateVersion_no_invalidFormat (rp av : String) (r : RegistryView)
    (hrp : rp ≠ "") (hav : av = "" ∨ matchesVersionRegex av = true) :
    validateVersion (some rp) (some av) r ≠ .error .invalidFormat := by
  have hcond : ¬(av ≠ "" ∧ matchesVersionRegex av = false) := by
    rcases hav with h | h <;> simp [h]
  rcases hg : getStagesInOrder r with e | os
  · intro hc
    rw [validateVersion] at hc
    rw [if_neg (by simp [jsFalsyStr, hrp])] at hc
    simp only [hg, if_neg hcond] at hc
    have he : e = .invalidFormat := by injection hc
    rcases getStagesInOrder_err r e hg with h | h | h <;> (rw [he] at h; cases h)
  · rcases hlast : os.bind (fun l => l.getLast?) with - | st
    · simp [validateVersion, jsFalsyStr, hrp, hcond, hg, hlast]
    · rcases ht : st.tags with - | al
      · simp [validateVersion, jsFalsyStr, hrp, hcond, hg, hlast, ht]
      · rcases al with - | tag
        · simp [validateVersion, jsFalsyStr, hrp, hcond, hg, hlast, ht]
        · by_cases hg2 : isGreaterVersion av tag = true <;>
            simp [validateVersion, jsFalsyStr, hrp, hcond, hg, hlast, ht, hg2]

/-- C7 counterexample: the claimed shape is `v<int>(-<int>)*`, which
the string `v1-2` matches, yet `validateVersion` rejects it with the
invalid-format error — the code's regex demands exactly three
components. -/
theorem candidate_format_gate_cex :
    specVersionShape "v1-2" = true ∧
    validateVersion (some "5") (some "v1-2") ⟨some "svc", some "api", some []⟩ =
      .error .invalidFormat :=
  ⟨rfl, rfl⟩

/-- C7 amended: under the configuration preconditions, a non-empty
candidate fails with the invalid-format error exactly when it does not
match the code's regex `v<int>-<int>-<int>` (leading marker, exactly
three integer components); the empty-string candidate bypasses the
format check entirely (it is falsy), and `1-2-0` (no leading marker) is
rejected even with no latest deployed version. -/
theorem candidate_format_gate_amended :
    (∀ (rp av : String) (r : RegistryView), rp ≠ "" → av ≠ "" →
      (validateVersion (some rp) (some av) r = .error .invalidFormat ↔
        matchesVersionRegex av = false)) ∧
    (∀ (rp : String) (r : RegistryView), rp ≠ "" →
      validateVersion (some rp) (some "") r ≠ .error .invalidFormat) ∧
    validateVersion (some "5") (some "1-2-0") ⟨some "svc", some "api", some []⟩ =
      .error .invalidFormat := by
  refine ⟨?_, ?_, rfl⟩
  · intro rp av r hrp hav
    constructor
    · intro h
      cases hm : matchesVersionRegex av with
      | false => rfl
      | true => exact absurd h (validateVersion_no_invalidFormat rp av r hrp (Or.inr hm))
    · intro hm
      simp [validateVersion, jsFalsyStr, hrp, hav, hm]
  · intro rp r hrp
    exact validateVersion_no_invalidFormat rp "" r hrp (Or.inl rfl)

/-- Witness for C7: a marker-less malformed candidate is rejected, and
a well-formed one is not rejected for format. -/
theorem candidate_format_gate_witness :
    validateVersion (some "5") (some "x1") ⟨some "svc", some "api", some []⟩ =
      .error .invalidFormat :=
  (candidate_format_gate_amended.1 "5" "x1" ⟨some "svc", some "api", some []⟩
    (by decide) (by decide)).mpr (by decide)

/-- C9: Retirement order.  With a resolvable registry whose
version-stages all carry readable, NaN-free tags, `getStagesInOrder`
returns a permutation of them that is ascending by version token
(pairwise: no earlier element is strictly greater), planning runs on
that list, the retire set (a filter of it) is ascending in the same
way, and the cleanup trace is exactly the sequential loop over the
retire set in that order — each record's delete(-then-wait) calls
complete before the next record's, and the delete calls name the
retired records in ascending (oldest-first) order. -/
theorem retirement_order (r : RegistryView) (svc : String) (l : List Stage)
    (hsvc : r.service = some svc) (hapi : r.restApiId ≠ none)
    (hitem : r.item = some l) (hgood : ∀ st ∈ l, goodStage st) :
    ∃ sorted, getStagesInOrder r = .ok (some sorted) ∧
      sorted.Perm l ∧ sorted.Pairwise stageLE ∧
      ∀ (stage : String) (retain : Nat) (del wait : String → Except String Unit),
        (stagesToDeleteOf sorted retain).Pairwise stageLE ∧
        cleanupVersions r stage retain del wait =
          (.ok (), runLoop svc stage del wait (stagesToDeleteOf sorted retain)) ∧
        deleteNames (cleanupVersions r stage retain del wait).2.2 =
          (stagesToDeleteOf sorted retain).filterMap (expectedDeleteName svc stage) := by
  have hfilt : l.filter (fun st => startsWithV st.stageName) = l :=
    List.filter_eq_self.mpr (fun st hst => (hgood st hst).1)
  obtain ⟨sorted, hs, hpair, hperm, hgoods⟩ := sortStages_good l hgood
  have hget : getStagesInOrder r = .ok (some sorted) := by
    simp [getStagesInOrder, hsvc, hapi, hitem, hfilt, hs]
  refine ⟨sorted, hget, hperm, hpair, ?_⟩
  intro stage retain del wait
  have hdel_pair : (stagesToDeleteOf sorted retain).Pairwise stageLE :=
    List.Pairwise.sublist (List.filter_sublist _) hpair
  have hclean : cleanupVersions r stage retain del wait =
      (.ok (), runLoop svc stage del wait (stagesToDeleteOf sorted retain)) := by
    simp [cleanupVersions, hsvc, hget]
  refine ⟨hdel_pair, hclean, ?_⟩
  rw [hclean]
  exact deleteNames_runLoop svc stage del wait _

/-- Witness for C9 at a registry listing two readable stages in
descending order. -/
theorem retirement_order_witness :
    ∃ sorted,
      getStagesInOrder
        ⟨some "svc", some "api",
          some [⟨some "v2", some (some "v1-1-0")⟩, ⟨some "v1", some (some "v1-0-0")⟩]⟩ =
        .ok (some sorted) ∧
      sorted.Perm [⟨some "v2", some (some "v1-1-0")⟩, ⟨some "v1", some (some "v1-0-0")⟩] ∧
      sorted.Pairwise stageLE ∧
      ∀ (stage : String) (retain : Nat) (del wait : String → Except String Unit),
        (stagesToDeleteOf sorted retain).Pairwise stageLE ∧
        cleanupVersions
          ⟨some "svc", some "api",
            some [⟨some "v2", some (some "v1-1-0")⟩, ⟨some "v1", some (some "v1-0-0")⟩]⟩
          stage retain del wait =
          (.ok (), runLoop "svc" stage del wait (stagesToDeleteOf sorted retain)) ∧
        deleteNames
          (cleanupVersions
            ⟨some "svc", some "api",
              some [⟨some "v2", some (some "v1-1-0")⟩, ⟨some "v1", some (some "v1-0-0")⟩]⟩
            stage retain del wait).2.2 =
          (stagesToDeleteOf sorted retain).filterMap (expectedDeleteName "svc" stage) := by
  apply retirement_order _ "svc" _ rfl (by simp) rfl
  intro st hst
  rcases List.mem_cons.mp hst with h | h
  · subst h
    exact ⟨rfl, "v1-1-0", rfl, by decide⟩
  · rcases List.mem_cons.mp h with h2 | h2
    · subst h2
      exact ⟨rfl, "v1-0-0", rfl, by decide⟩
    · cases h2
